import Mathlib

/-
Verification of the session-orchestration core of the steampipe interactive
client against its natural-language specification.

The development shallowly embeds the relevant Go code:
  * `Connection.PopulateChildren` (aggregator child resolution) together with a
    faithful translation of Go's `path.Match` glob matcher,
  * the `InteractiveClient` input path (`executor`, `getQuery`,
    `shouldExecute`) as a pure state-transition function,
  * the SIGINT cancel handler (`startCancelHandler`) as a transition on a
    session state record,
  * the teardown sequence of `InteractivePrompt` and the invalidation sequence
    of `handleConnectionUpdateNotification` as explicit event traces annotated
    with whether the execution lock is held.

Strings are modelled as `List Char` (Go strings over runes; the connection
names and queries involved are plain text, so a rune is modelled as a `Char`).
-/

set_option autoImplicit false

namespace Steampipe

abbrev LC := List Char

/-- Convert a Lean string literal to the `List Char` string model. -/
def str (s : String) : LC := s.data

/-- Whitespace test used by Go's `strings.TrimSpace` (ASCII portion of
Unicode.IsSpace: space, tab, newline, vertical tab, form feed, carriage
return). -/
def goIsSpace (c : Char) : Bool :=
  c == ' ' || c == '\t' || c == '\n' || c == '\x0b' || c == '\x0c' || c == '\r'

/-- Model of Go `strings.TrimSpace`: drop whitespace from both ends. -/
def trimSpace (l : LC) : LC :=
  ((l.dropWhile goIsSpace).reverse.dropWhile goIsSpace).reverse

/-- Model of Go `strings.Join(lines, "\n")`, as used by
`InteractiveClient.getQuery` to join the interactive buffer. -/
def joinLines : List LC → LC
  | [] => []
  | l :: ls =>
    match ls with
    | [] => l
    | _ :: _ => l ++ '\n' :: joinLines ls

/-! ## Go `path.Match`

`Connection.PopulateChildren` matches unresolved child names as wildcards via
`path.Match(childName, name)`, ignoring the returned error.  The functions
below are a direct translation of Go's `path` package (`scanChunk`,
`matchChunk`, `getEsc`, `Match`); a `none`/`false` result stands for the
`ErrBadPattern` error, which the caller discards.  Recursions are expressed
with an explicit fuel argument that is always sufficient because every
recursive call strictly consumes the pattern or the name. -/

/-- Go `path.getEsc`: read a (possibly `\`-escaped) character-class endpoint.
`none` models `ErrBadPattern`. -/
def getEsc : LC → Option (Char × LC)
  | [] => none
  | c :: rest =>
    if c = '-' ∨ c = ']' then none
    else if c = '\\' then
      match rest with
      | [] => none
      | r :: rest2 => if rest2.isEmpty then none else some (r, rest2)
    else if rest.isEmpty then none else some (c, rest)

/-- The range-parsing loop inside Go `path.matchChunk`'s `[` case.  Returns
the chunk remaining after the class and whether `r` matched a range. -/
def rangesLoopGo : Nat → Char → Bool → Nat → LC → Option (LC × Bool)
  | 0, _, _, _, _ => none
  | fuel + 1, r, mtch, nrange, chunk =>
    match chunk with
    | [] => none
    | c :: rest =>
      if c = ']' ∧ 0 < nrange then some (rest, mtch)
      else
        match getEsc chunk with
        | none => none
        | some (lo, chunk1) =>
          match
            (match chunk1 with
             | '-' :: t2 => getEsc t2
             | _ => some (lo, chunk1)) with
          | none => none
          | some (hi, chunk2) =>
            rangesLoopGo fuel r (mtch || (decide (lo ≤ r) && decide (r ≤ hi)))
              (nrange + 1) chunk2

/-- Go `path.matchChunk`: match a wildcard-free chunk at the start of `s`.
Returns the rest of `s` and the success flag; `none` models `ErrBadPattern`.
The `failed` flag mirrors Go's: after a mismatch the chunk is still consumed
to keep checking pattern well-formedness. -/
def matchChunkGo : Nat → Bool → LC → LC → Option (LC × Bool)
  | 0, _, _, _ => none
  | fuel + 1, failed0, chunk, s =>
    match chunk with
    | [] => if failed0 then some ([], false) else some (s, true)
    | c :: chunkRest =>
      let failed := failed0 || s.isEmpty
      if c = '[' then
        let r := if failed then ' ' else s.headD ' '
        let s1 := if failed then s else s.tail
        let negChunk :=
          match chunkRest with
          | c2 :: t => if c2 = '^' then (true, t) else (false, chunkRest)
          | [] => (false, chunkRest)
        match rangesLoopGo (negChunk.2.length + 1) r false 0 negChunk.2 with
        | none => none
        | some (chunk2, mtch) =>
          matchChunkGo fuel (failed || (mtch == negChunk.1)) chunk2 s1
      else if c = '?' then
        if failed then matchChunkGo fuel failed chunkRest s
        else matchChunkGo fuel (s.headD ' ' == '/') chunkRest s.tail
      else if c = '\\' then
        match chunkRest with
        | [] => none
        | c2 :: rest2 =>
          if failed then matchChunkGo fuel failed rest2 s
          else matchChunkGo fuel (!(c2 == s.headD ' ')) rest2 s.tail
      else
        if failed then matchChunkGo fuel failed chunkRest s
        else matchChunkGo fuel (!(c == s.headD ' ')) chunkRest s.tail

/-- The leading-star loop of Go `path.scanChunk`. -/
def dropStars : LC → Bool × LC
  | [] => (false, [])
  | c :: rest => if c = '*' then (true, (dropStars rest).2) else (false, c :: rest)

/-- The chunk scan of Go `path.scanChunk`: split off the pattern segment up to
the next `*` that is outside a character class. -/
def scanChunkBody : Bool → LC → LC × LC
  | _, [] => ([], [])
  | inrange, c :: rest =>
    if c = '\\' then
      match rest with
      | [] => (['\\'], [])
      | c2 :: rest2 =>
        let p := scanChunkBody inrange rest2
        ('\\' :: c2 :: p.1, p.2)
    else if c = '[' then
      let p := scanChunkBody true rest
      ('[' :: p.1, p.2)
    else if c = ']' then
      let p := scanChunkBody false rest
      (']' :: p.1, p.2)
    else if c = '*' then
      if inrange then
        let p := scanChunkBody inrange rest
        ('*' :: p.1, p.2)
      else ([], c :: rest)
    else
      let p := scanChunkBody inrange rest
      (c :: p.1, p.2)

mutual

/-- Main loop of Go `path.Match`.  A `false` result covers both "no match"
and `ErrBadPattern`, exactly as `PopulateChildren` treats them. -/
def goMatchFuel : Nat → LC → LC → Bool
  | 0, _, _ => false
  | fuel + 1, pattern, name =>
    match pattern with
    | [] => name.isEmpty
    | _ :: _ =>
      let sc := dropStars pattern
      let body := scanChunkBody false sc.2
      if sc.1 && body.1.isEmpty then !(name.contains '/')
      else
        match matchChunkGo (body.1.length + 1) false body.1 name with
        | some (t, true) =>
          if t.isEmpty || !body.2.isEmpty then goMatchFuel fuel body.2 t
          else if sc.1 then starLoopFuel fuel body.1 body.2 name
          else false
        | some (_, false) =>
          if sc.1 then starLoopFuel fuel body.1 body.2 name else false
        | none => false

/-- The star-backtracking loop of Go `path.Match`: retry the chunk at each
later position of `name`, stopping at `/`. -/
def starLoopFuel : Nat → LC → LC → LC → Bool
  | 0, _, _, _ => false
  | fuel + 1, chunk, rest, name =>
    match name with
    | [] => false
    | c :: nameRest =>
      if c = '/' then false
      else
        match matchChunkGo (chunk.length + 1) false chunk nameRest with
        | some (t, true) =>
          if rest.isEmpty && !t.isEmpty then starLoopFuel fuel chunk rest nameRest
          else goMatchFuel fuel rest t
        | some (_, false) => starLoopFuel fuel chunk rest nameRest
        | none => false

end

/-- Model of Go `path.Match pattern name` with the error collapsed to
`false` (the caller in `PopulateChildren` ignores it).  The fuel
`pattern.length + name.length + 1` is sufficient: every iteration strictly
shortens the pattern or the name. -/
def pathMatch (pattern name : LC) : Bool :=
  goMatchFuel (pattern.length + name.length + 1) pattern name

/-! ## Connection and aggregator child resolution -/

/-- The connection type string `"aggregator"` (Go `ConnectionTypeAggregator`). -/
def connectionTypeAggregator : LC := str "aggregator"

/-- Model of `modconfig.Connection`, restricted to the fields read or written
by `PopulateChildren` and `ValidateAggregatorConnection`: `Name`, `Plugin`,
`Type` and the child name list `ConnectionNames`.  The resolved child map
(`Connections` in Go) is represented separately as the result of
`populateChildren`. -/
structure Connection where
  name : LC
  plugin : LC
  ctype : LC
  connectionNames : List LC
deriving DecidableEq, Repr

/-- Go map lookup on an association-list model of `map[string]*Connection`;
first entry with the key wins. -/
def lookupA {α : Type} : List (LC × α) → LC → Option α
  | [], _ => none
  | (k, v) :: rest, key => if k = key then some v else lookupA rest key

/-- Go map assignment `m[key] = v` on the association-list model: overwrite
the existing entry for `key`, otherwise append. -/
def insertA {α : Type} (l : List (LC × α)) (key : LC) (v : α) : List (LC × α) :=
  if (lookupA l key).isSome then
    l.map (fun p => if p.1 = key then (key, v) else p)
  else l ++ [(key, v)]

/-- One iteration of the wildcard loop in `Connection.PopulateChildren`:
skip aggregator candidates, skip already-added names, then add the candidate
if the glob matches and the plugin agrees. -/
def wildcardStep (c : Connection) (childName : LC)
    (acc : List (LC × Connection)) (entry : LC × Connection) :
    List (LC × Connection) :=
  if entry.2.ctype = connectionTypeAggregator then acc
  else if (lookupA acc entry.1).isSome then acc
  else if pathMatch childName entry.1 then
    if entry.2.plugin = c.plugin then insertA acc entry.1 entry.2
    else acc
  else acc

/-- One iteration of the outer loop of `Connection.PopulateChildren` over a
child name: a literal hit in the connection map is added directly, otherwise
the name is treated as a wildcard over the whole map. -/
def populateStep (c : Connection) (connectionMap : List (LC × Connection))
    (acc : List (LC × Connection)) (childName : LC) : List (LC × Connection) :=
  match lookupA connectionMap childName with
  | some conn => insertA acc childName conn
  | none => connectionMap.foldl (wildcardStep c childName) acc

/-- Model of `Connection.PopulateChildren`: computes the resolved child map
`c.Connections` from the candidate connection map. -/
def populateChildren (c : Connection) (connectionMap : List (LC × Connection)) :
    List (LC × Connection) :=
  c.connectionNames.foldl (populateStep c connectionMap) []

/-- Model of the `ResolvedConnectionNames` assignment
(`maps.Keys(c.Connections)`; key order is unspecified in Go and modelled as
insertion order). -/
def resolvedConnectionNames (c : Connection)
    (connectionMap : List (LC × Connection)) : List LC :=
  (populateChildren c connectionMap).map Prod.fst

example : pathMatch (str "b*") (str "b1") = true := by decide
example : pathMatch (str "b*") (str "c") = false := by decide
example : pathMatch (str "b*") (str "A") = false := by decide
example : pathMatch (str "b[0-9]") (str "b7") = true := by decide
example : pathMatch (str "b?") (str "b7") = true := by decide

/-! ## The interactive client input path

`InteractiveClient.executor` / `getQuery` / `shouldExecute` are embedded as a
pure transition on the session-visible state they mutate: the interactive
buffer, the query history, the initialisation flag and `afterClose`.  External
collaborators that the code calls but whose definitions are outside this file
are passed in through `Env` (see the individual doc comments). -/

/-- Go `AfterPromptCloseAction` (`AfterPromptCloseExit` / `AfterPromptCloseRestart`). -/
inductive AfterPromptCloseAction
  | exit
  | restart
deriving DecidableEq, Repr

/-- Model of `modconfig.ResolvedQuery` restricted to the fields the
interactive client reads: `ExecuteSQL` and `Args` (the struct itself is
declared outside the embedded source). -/
structure ResolvedQuery where
  executeSQL : LC
  args : List LC
deriving DecidableEq, Repr

/-- Modelled from the spec: the Query Resolver collaborator backing
`c.workspace().ResolveQueryAndArgsFromSQLString`, which is not part of the
embedded source.  Per spec section 6 it resolves accumulated text to
`(executableText, args, isNamedOrDirective)` or a resolution error; per the
spec's worked examples (section 8, properties 1-3) a non-named input that
resolves successfully resolves to itself.  `namedQueries` maps named
references to their stored queries and `resolutionFails` marks inputs whose
resolution errors. -/
structure Workspace where
  namedQueries : List (LC × ResolvedQuery)
  resolutionFails : LC → Bool

/-- Modelled from the spec: `ResolveQueryAndArgsFromSQLString` — error on
inputs marked by `resolutionFails`, a named reference resolves to its stored
query with the named flag set, anything else resolves to itself.  `none`
models a resolution error. -/
def resolveQueryAndArgsFromSQLString (ws : Workspace) (sql : LC) :
    Option (ResolvedQuery × Bool) :=
  if ws.resolutionFails sql then none
  else
    match lookupA ws.namedQueries sql with
    | some rq => some (rq, true)
    | none => some (⟨sql, []⟩, false)

/-- External inputs of the executor path: the workspace resolver, the
multi-line option (`viper` flag `ArgMultiLine`), the directive grammar test
(`metaquery.IsMetaQuery`, defined outside the embedded source, kept
abstract), and whether a pending initialisation wait would fail
(`waitForInitData`, also external). -/
structure Env where
  ws : Workspace
  multiLine : Bool
  isMetaQuery : LC → Bool
  initWaitFails : Bool

/-- Direct translation of `InteractiveClient.shouldExecute`: named queries
always execute; without multi-line mode everything executes; metaqueries
execute; otherwise the joined line must end in `';'`. -/
def shouldExecute (env : Env) (line : LC) (namedQuery : Bool) : Bool :=
  if namedQuery then true
  else if !env.multiLine then true
  else if env.isMetaQuery line then true
  else if line.getLast? = some ';' then true
  else false

/-- The session-visible state mutated by the executor path: the multi-line
input buffer, the query history (`interactiveQueryHistory`, as the ordered
list of pushed entries), the initialisation flag and the after-close action. -/
structure InteractiveState where
  interactiveBuffer : List LC
  history : List LC
  initialisationComplete : Bool
  afterClose : AfterPromptCloseAction
deriving DecidableEq, Repr

/-- Which exit `InteractiveClient.getQuery` took; `resolved` corresponds to
returning a non-nil `*modconfig.ResolvedQuery` (carrying the named-query
flag), every other constructor corresponds to returning nil at the marked
point of the Go function. -/
inductive GetQueryOutcome
  | emptyLine
  | initFailure
  | resolutionError
  | continueBuffering
  | bareTerminator
  | resolved (rq : ResolvedQuery) (isNamed : Bool)
deriving DecidableEq, Repr

/-- The final value of Go's `historyEntry` on the execute path of `getQuery`:
a multi-line, non-named statement stores the full resolved text, anything
else stores the raw submitted line (`len(strings.Split(sql, "\n")) > 1` is
equivalent to the text containing a newline). -/
def historyEntryFor (line : LC) (rq : ResolvedQuery) (isNamed : Bool) : LC :=
  if !isNamed && rq.executeSQL.contains '\n' then rq.executeSQL else line

/-- The part of `InteractiveClient.getQuery` that runs after the
initialisation wait: push the line into the buffer, resolve the joined text,
decide whether to execute, and compute the history entry.  The deferred
history push (`historyEntry` in Go) is reflected in the `history` field of
the returned state; `interactiveBuffer` mirrors the Go field. -/
def getQueryMain (env : Env) (s : InteractiveState) (line : LC) :
    InteractiveState × GetQueryOutcome :=
  match resolveQueryAndArgsFromSQLString env.ws
      (joinLines (s.interactiveBuffer ++ [line])) with
  | none =>
    ({ s with interactiveBuffer := [], history := s.history ++ [line] },
      .resolutionError)
  | some (rq, isNamed) =>
    if !shouldExecute env (joinLines (s.interactiveBuffer ++ [line])) isNamed then
      ({ s with interactiveBuffer := s.interactiveBuffer ++ [line] },
        .continueBuffering)
    else if trimSpace rq.executeSQL = [';'] then
      ({ s with interactiveBuffer := [] }, .bareTerminator)
    else
      ({ s with
          interactiveBuffer := []
          history := s.history ++ [historyEntryFor line rq isNamed] },
        .resolved rq isNamed)

/-- Direct translation of `InteractiveClient.getQuery`: an empty line is a
no-op; a failing initialisation wait clears the buffer and records nothing;
otherwise the resolution phase (`getQueryMain`) runs.  On a successful
initialisation wait the model sets the `initialisationComplete` flag (in Go
the flag is set by the init-stream reader that `waitForInitData` waits on). -/
def getQuery (env : Env) (s0 : InteractiveState) (line : LC) :
    InteractiveState × GetQueryOutcome :=
  if line = [] then (s0, .emptyLine)
  else if !s0.initialisationComplete && env.initWaitFails then
    ({ s0 with interactiveBuffer := [] }, .initFailure)
  else if s0.initialisationComplete then getQueryMain env s0 line
  else getQueryMain env { s0 with initialisationComplete := true } line

/-- Result of one `executor` call: either no query was obtained (the prompt
is simply restarted) or a query was dispatched, classified as metaquery or
statement by `metaquery.IsMetaQuery`. -/
inductive ExecOutcome
  | noQuery (o : GetQueryOutcome)
  | executed (rq : ResolvedQuery) (isNamed : Bool) (isMeta : Bool)
deriving DecidableEq, Repr

/-- Direct translation of `InteractiveClient.executor`: set `afterClose` to
restart, trim the incoming line, run `getQuery`, and dispatch the query if
one was resolved.  Every path ends by restarting the interactive session. -/
def executor (env : Env) (s0 : InteractiveState) (rawLine : LC) :
    InteractiveState × ExecOutcome :=
  let s1 := { s0 with afterClose := AfterPromptCloseAction.restart }
  let line := trimSpace rawLine
  match getQuery env s1 line with
  | (s2, .resolved rq isNamed) =>
    (s2, .executed rq isNamed (env.isMetaQuery rq.executeSQL))
  | (s2, o) => (s2, .noQuery o)

/-! ## The cancel handler -/

/-- Session state seen by the SIGINT handler installed by
`startCancelHandler`: the initialisation flag, whether the prompt context is
alive, the after-close action, the active query cancel function (as an
optional token id), the tokens cancelled so far, and whether the handler
goroutine is still listening for interrupts. -/
structure CancelState where
  initialisationComplete : Bool
  promptOpen : Bool
  afterClose : AfterPromptCloseAction
  cancelActiveQuery : Option Nat
  cancelled : List Nat
  handlerRunning : Bool
deriving DecidableEq, Repr

/-- Modelled from the spec: `cancelActiveQueryIfAny` is not part of the
embedded source (only its call sites are).  Per spec sections 3 and 4.5 it
invokes the current cancel token's function if one is valid, invalidates it,
and is a no-op otherwise. -/
def cancelActiveQueryIfAny (s : CancelState) : CancelState :=
  match s.cancelActiveQuery with
  | some t =>
    { s with cancelActiveQuery := none, cancelled := s.cancelled ++ [t] }
  | none => s

/-- Translation of `InteractiveClient.ClosePrompt`: record the after-close
action and cancel the prompt context. -/
def closePrompt (s : CancelState) (a : AfterPromptCloseAction) : CancelState :=
  { s with afterClose := a, promptOpen := false }

/-- The SIGINT branch of the goroutine in
`InteractiveClient.startCancelHandler`: before initialisation completes an
interrupt closes the prompt with the exit action and stops the handler;
afterwards it only cancels the active query, if any, and keeps listening. -/
def handleInterrupt (s : CancelState) : CancelState :=
  if !s.initialisationComplete then
    { closePrompt s AfterPromptCloseAction.exit with handlerRunning := false }
  else cancelActiveQueryIfAny s

/-- A sequence of `n` consecutive interrupts. -/
def iterateInterrupts : Nat → CancelState → CancelState
  | 0, s => s
  | n + 1, s => iterateInterrupts n (handleInterrupt s)

/-! ## Event traces: teardown and schema-update invalidation -/

/-- The teardown actions named by the spec's Closing sequence, plus the
init-data cleanup that sits between them in the code. -/
inductive TeardownStep
  | persistHistory
  | stopNotificationListener
  | stopInterrupts
  | finalCancel
  | cleanupInitData
  | closeOutputSink
deriving DecidableEq, Repr

/-- The ordered teardown trace of `InteractiveClient.InteractivePrompt` on the
exit path (`afterClose = AfterPromptCloseExit`): the select loop persists the
history, then (when a notification listener was started, i.e.
`cancelNotificationListener != nil`) cancels the listener and returns; the
deferred function then signals the cancel-handler goroutine to quit — which
performs one final `cancelActiveQueryIfAny` and stops reacting to interrupts —
cleans up the init data and closes the result streamer. -/
def interactivePromptExitTrace (hasNotificationListener : Bool) :
    List TeardownStep :=
  [TeardownStep.persistHistory] ++
  (if hasNotificationListener then [TeardownStep.stopNotificationListener] else []) ++
  [TeardownStep.stopInterrupts, TeardownStep.finalCancel,
   TeardownStep.cleanupInitData, TeardownStep.closeOutputSink]

/-- The actions of `handleConnectionUpdateNotification`, in program order. -/
inductive InvalStep
  | loadSchemaNames
  | setConnectionMap
  | setGlobalConfig
  | setSchemaMetadata
  | rebuildSuggestions
  | refreshSessions
deriving DecidableEq, Repr

/-- The event trace of `InteractiveClient.handleConnectionUpdateNotification`,
each step paired with whether the `executionLock` is held when it runs.  The
flags select the error branches: a `LoadSchemaNames` error is only logged (the
handler continues, so the flag does not change the trace), while errors from
`GetConnectionState`, `LoadSteampipeConfig` and `loadSchema` each return
early.  The lock is acquired only immediately before `RefreshSessions`. -/
def handleConnectionUpdateNotificationTrace
    (_loadNamesErr getStateErr loadConfigErr loadSchemaErr : Bool) :
    List (InvalStep × Bool) :=
  [(InvalStep.loadSchemaNames, false)] ++
  (if getStateErr then [] else
    [(InvalStep.setConnectionMap, false)] ++
    (if loadConfigErr then [] else
      [(InvalStep.setGlobalConfig, false)] ++
      (if loadSchemaErr then [] else
        [(InvalStep.setSchemaMetadata, false),
         (InvalStep.rebuildSuggestions, false),
         (InvalStep.refreshSessions, true)])))

/-! ## Association-list lemmas for the connection map -/

theorem lookupA_isSome_of_mem {α : Type} {l : List (LC × α)} {k : LC} {v : α}
    (hm : (k, v) ∈ l) : (lookupA l k).isSome = true := by
  induction l with
  | nil => simp at hm
  | cons p rest ih =>
    obtain ⟨k', v'⟩ := p
    simp only [lookupA]
    by_cases hk : k' = k
    · simp [hk]
    · rcases List.mem_cons.mp hm with h1 | h1
      · exact absurd (congrArg Prod.fst h1).symm hk
      · simp [hk, ih h1]

theorem exists_mem_of_lookupA_isSome {α : Type} {l : List (LC × α)} {k : LC}
    (h : (lookupA l k).isSome = true) : ∃ v, (k, v) ∈ l := by
  induction l with
  | nil => simp [lookupA] at h
  | cons p rest ih =>
    obtain ⟨k', v'⟩ := p
    simp only [lookupA] at h
    by_cases hk : k' = k
    · subst hk
      exact ⟨v', List.mem_cons_self _ _⟩
    · simp only [hk, if_false] at h
      obtain ⟨v, hv⟩ := ih h
      exact ⟨v, List.mem_cons_of_mem _ hv⟩

theorem mem_insertA {α : Type} {l : List (LC × α)} {k : LC} {v : α} {p : LC × α}
    (h : p ∈ insertA l k v) : p ∈ l ∨ p = (k, v) := by
  unfold insertA at h
  split at h
  · rcases List.mem_map.mp h with ⟨q, hq, he⟩
    by_cases hk : q.1 = k
    · right; simp only [hk, if_true] at he; exact he.symm
    · left; simp only [hk, if_false] at he; exact he ▸ hq
  · rcases List.mem_append.mp h with h1 | h1
    · exact Or.inl h1
    · exact Or.inr (List.mem_singleton.mp h1)

theorem self_mem_insertA {α : Type} (l : List (LC × α)) (k : LC) (v : α) :
    (k, v) ∈ insertA l k v := by
  unfold insertA
  split
  · next hs =>
    obtain ⟨v', hv'⟩ := exists_mem_of_lookupA_isSome hs
    exact List.mem_map.mpr ⟨(k, v'), hv', by simp⟩
  · exact List.mem_append_right _ (List.mem_singleton.mpr rfl)

theorem mem_insertA_of_mem_ne {α : Type} {l : List (LC × α)} {k : LC} {v : α}
    {k' : LC} (v' : α) (h : (k, v) ∈ l) (hne : k ≠ k') :
    (k, v) ∈ insertA l k' v' := by
  unfold insertA
  split
  · exact List.mem_map.mpr ⟨(k, v), h, by simp [hne]⟩
  · exact List.mem_append_left _ h

/-! ## Membership facts about `populateChildren` -/

theorem mem_wildcardStep {c : Connection} {childName : LC}
    {acc : List (LC × Connection)} {k : LC} {v : Connection}
    (entry : LC × Connection) (h : (k, v) ∈ acc) :
    (k, v) ∈ wildcardStep c childName acc entry := by
  unfold wildcardStep
  split
  · exact h
  · split
    · exact h
    · next _ hnone =>
      split
      · split
        · refine mem_insertA_of_mem_ne _ h fun he => ?_
          subst he
          exact absurd (lookupA_isSome_of_mem h) hnone
        · exact h
      · exact h

theorem mem_foldl_wildcardStep {c : Connection} {childName : LC}
    (l : List (LC × Connection)) {acc : List (LC × Connection)} {k : LC}
    {v : Connection} (h : (k, v) ∈ acc) :
    (k, v) ∈ l.foldl (wildcardStep c childName) acc := by
  induction l generalizing acc with
  | nil => exact h
  | cons e rest ih => exact ih (mem_wildcardStep e h)

theorem mem_populateStep {c : Connection} {connectionMap : List (LC × Connection)}
    {acc : List (LC × Connection)} {k : LC} {v : Connection} (childName : LC)
    (hk : lookupA connectionMap k = some v) (h : (k, v) ∈ acc) :
    (k, v) ∈ populateStep c connectionMap acc childName := by
  unfold populateStep
  split
  · next conn heq =>
    by_cases he : k = childName
    · subst he
      rw [hk] at heq
      injection heq with e
      subst e
      exact self_mem_insertA _ _ _
    · exact mem_insertA_of_mem_ne _ h he
  · exact mem_foldl_wildcardStep _ h

theorem mem_foldl_populateStep {c : Connection} {connectionMap : List (LC × Connection)}
    (names : List LC) {acc : List (LC × Connection)} {k : LC} {v : Connection}
    (hk : lookupA connectionMap k = some v) (h : (k, v) ∈ acc) :
    (k, v) ∈ names.foldl (populateStep c connectionMap) acc := by
  induction names generalizing acc with
  | nil => exact h
  | cons n rest ih => exact ih (mem_populateStep n hk h)

theorem literal_mem_populate_foldl {c : Connection}
    {connectionMap : List (LC × Connection)} {childName : LC} {conn : Connection}
    (hlk : lookupA connectionMap childName = some conn) :
    ∀ (names : List LC) (acc : List (LC × Connection)), childName ∈ names →
      (childName, conn) ∈ names.foldl (populateStep c connectionMap) acc := by
  intro names
  induction names with
  | nil => intro acc h; simp at h
  | cons n rest ih =>
    intro acc h
    rcases List.mem_cons.mp h with he | hm
    · subst he
      refine mem_foldl_populateStep rest hlk ?_
      unfold populateStep
      rw [hlk]
      exact self_mem_insertA _ _ _
    · exact ih _ hm

/-- The per-member property resolved children satisfy: either a literal hit
(the name is a child name and the map has it, no further checks) or a
filtered wildcard hit (a non-aggregator map entry with the parent's plugin). -/
def childSpec (c : Connection) (connectionMap : List (LC × Connection))
    (p : LC × Connection) : Prop :=
  (p.1 ∈ c.connectionNames ∧ lookupA connectionMap p.1 = some p.2) ∨
  (p ∈ connectionMap ∧ p.2.ctype ≠ connectionTypeAggregator ∧
   p.2.plugin = c.plugin)

theorem childSpec_wildcardStep {c : Connection} {connectionMap : List (LC × Connection)}
    {childName : LC} {acc : List (LC × Connection)} (entry : LC × Connection)
    (hmem : entry ∈ connectionMap)
    (hacc : ∀ p ∈ acc, childSpec c connectionMap p) :
    ∀ p ∈ wildcardStep c childName acc entry, childSpec c connectionMap p := by
  obtain ⟨ek, ev⟩ := entry
  intro p hp
  unfold wildcardStep at hp
  split at hp
  · exact hacc p hp
  · next hagg =>
    split at hp
    · exact hacc p hp
    · split at hp
      · split at hp
        · next hplugin =>
          rcases mem_insertA hp with h | h
          · exact hacc p h
          · subst h
            exact Or.inr ⟨hmem, hagg, hplugin⟩
        · exact hacc p hp
      · exact hacc p hp

theorem childSpec_foldl_wildcard {c : Connection} {connectionMap : List (LC × Connection)}
    {childName : LC} :
    ∀ (l : List (LC × Connection)) (acc : List (LC × Connection)),
      (∀ e ∈ l, e ∈ connectionMap) →
      (∀ p ∈ acc, childSpec c connectionMap p) →
      ∀ p ∈ l.foldl (wildcardStep c childName) acc, childSpec c connectionMap p := by
  intro l
  induction l with
  | nil => intro acc _ hacc; exact hacc
  | cons e rest ih =>
    intro acc hl hacc
    exact ih _ (fun x hx => hl x (List.mem_cons_of_mem _ hx))
      (childSpec_wildcardStep e (hl e (List.mem_cons_self _ _)) hacc)

theorem childSpec_populateStep {c : Connection} {connectionMap : List (LC × Connection)}
    {acc : List (LC × Connection)} {childName : LC}
    (hcn : childName ∈ c.connectionNames)
    (hacc : ∀ p ∈ acc, childSpec c connectionMap p) :
    ∀ p ∈ populateStep c connectionMap acc childName, childSpec c connectionMap p := by
  intro p hp
  unfold populateStep at hp
  split at hp
  · next conn heq =>
    rcases mem_insertA hp with h | h
    · exact hacc p h
    · subst h
      exact Or.inl ⟨hcn, heq⟩
  · exact childSpec_foldl_wildcard connectionMap acc (fun e he => he) hacc p hp

theorem childSpec_foldl_populate {c : Connection} {connectionMap : List (LC × Connection)} :
    ∀ (names : List LC) (acc : List (LC × Connection)),
      (∀ n ∈ names, n ∈ c.connectionNames) →
      (∀ p ∈ acc, childSpec c connectionMap p) →
      ∀ p ∈ names.foldl (populateStep c connectionMap) acc,
        childSpec c connectionMap p := by
  intro names
  induction names with
  | nil => intro acc _ hacc; exact hacc
  | cons n rest ih =>
    intro acc hn hacc
    exact ih _ (fun x hx => hn x (List.mem_cons_of_mem _ hx))
      (childSpec_populateStep (hn n (List.mem_cons_self _ _)) hacc)

theorem populateChildren_childSpec (c : Connection)
    (connectionMap : List (LC × Connection)) :
    ∀ p ∈ populateChildren c connectionMap, childSpec c connectionMap p :=
  childSpec_foldl_populate c.connectionNames [] (fun _ h => h) (by simp)

/-! ## String lemmas -/

theorem trimSpace_eq_nil_of_all_space {l : LC} (h : l.all goIsSpace = true) :
    trimSpace l = [] := by
  unfold trimSpace
  have h1 : l.dropWhile goIsSpace = [] :=
    List.dropWhile_eq_nil_iff.mpr (by simpa [List.all_eq_true] using h)
  simp [h1]

theorem head?_dropWhile_not {p : Char → Bool} :
    ∀ (l : LC) (c : Char), (l.dropWhile p).head? = some c → p c = false := by
  intro l
  induction l with
  | nil => intro c h; simp [List.dropWhile] at h
  | cons a rest ih =>
    intro c h
    cases hpa : p a with
    | true =>
      rw [List.dropWhile_cons_of_pos hpa] at h
      exact ih c h
    | false =>
      rw [List.dropWhile_cons_of_neg (by simp [hpa])] at h
      simp only [List.head?_cons, Option.some.injEq] at h
      exact h ▸ hpa

theorem getLast?_reverse' (l : LC) : l.reverse.getLast? = l.head? := by
  rw [← List.head?_reverse, List.reverse_reverse]

theorem trimSpace_getLast_not_space (x : LC) (hne : trimSpace x ≠ []) :
    ∃ c, (trimSpace x).getLast? = some c ∧ goIsSpace c = false := by
  unfold trimSpace at *
  cases hZ : (x.dropWhile goIsSpace).reverse.dropWhile goIsSpace with
  | nil => rw [hZ] at hne; simp at hne
  | cons c rest =>
    refine ⟨c, ?_, head?_dropWhile_not _ c (by rw [hZ]; rfl)⟩
    rw [getLast?_reverse']
    rfl

theorem getLast_semi_of_trim_semi {j : LC} {c : Char}
    (htrim : trimSpace j = [';']) (hlast : j.getLast? = some c)
    (hns : goIsSpace c = false) : c = ';' := by
  have hDrev : (j.dropWhile goIsSpace).reverse.dropWhile goIsSpace = [';'] := by
    have h1 : ((j.dropWhile goIsSpace).reverse.dropWhile goIsSpace).reverse = [';'] := htrim
    calc (j.dropWhile goIsSpace).reverse.dropWhile goIsSpace
        = (((j.dropWhile goIsSpace).reverse.dropWhile goIsSpace).reverse).reverse :=
          (List.reverse_reverse _).symm
      _ = List.reverse [';'] := by rw [h1]
      _ = [';'] := rfl
  have hDne : j.dropWhile goIsSpace ≠ [] := by
    intro h
    rw [h] at hDrev
    simp [List.dropWhile] at hDrev
  have hjD : j.getLast? = (j.dropWhile goIsSpace).getLast? := by
    conv_lhs => rw [← @List.takeWhile_append_dropWhile _ goIsSpace j]
    exact List.getLast?_append_of_ne_nil _ hDne
  have hDlast : (j.dropWhile goIsSpace).getLast? = some c := hjD ▸ hlast
  have hRhead : (j.dropWhile goIsSpace).reverse.head? = some c := by
    rw [List.head?_reverse]
    exact hDlast
  cases hR : (j.dropWhile goIsSpace).reverse with
  | nil => rw [hR] at hRhead; simp at hRhead
  | cons a rest =>
    rw [hR] at hRhead
    simp only [List.head?_cons, Option.some.injEq] at hRhead
    subst hRhead
    rw [hR, List.dropWhile_cons_of_neg (by simp [hns])] at hDrev
    simp only [List.cons.injEq] at hDrev
    exact hDrev.1

theorem getLast?_isSome_of_ne_nil {l : LC} (h : l ≠ []) :
    ∃ c, l.getLast? = some c := by
  cases hl : l with
  | nil => exact absurd hl h
  | cons a as => exact ⟨(a :: as).getLast (by simp), List.getLast?_eq_getLast _ _⟩

theorem joinLines_cons_append (b : LC) (bs : List LC) (line : LC) :
    joinLines ((b :: bs) ++ [line]) = b ++ '\n' :: joinLines (bs ++ [line]) := by
  cases bs <;> rfl

theorem joinLines_getLast? {line : LC} (hne : line ≠ []) :
    ∀ buf : List LC, (joinLines (buf ++ [line])).getLast? = line.getLast? := by
  intro buf
  induction buf with
  | nil => rfl
  | cons b bs ih =>
    obtain ⟨c, hc⟩ := getLast?_isSome_of_ne_nil hne
    have hnil : joinLines (bs ++ [line]) ≠ [] := by
      intro h
      rw [h, hc] at ih
      simp at ih
    rw [joinLines_cons_append, @List.getLast?_append_of_ne_nil _ b
      ('\n' :: joinLines (bs ++ [line])) (by simp)]
    have hsplit : ('\n' :: joinLines (bs ++ [line])) =
        ['\n'] ++ joinLines (bs ++ [line]) := rfl
    rw [hsplit, List.getLast?_append_of_ne_nil _ hnil]
    exact ih

/-! ## Facts about the resolver and the execute decision -/

theorem resolve_nonNamed {ws : Workspace} {q : LC} {rq : ResolvedQuery}
    (h : resolveQueryAndArgsFromSQLString ws q = some (rq, false)) :
    rq = ⟨q, []⟩ := by
  unfold resolveQueryAndArgsFromSQLString at h
  split at h
  · exact absurd h (by simp)
  · split at h
    · simp at h
    · simp only [Option.some.injEq, Prod.mk.injEq] at h
      exact h.1.symm

theorem shouldExecute_of_getLast_semi (env : Env) {line : LC}
    (h : line.getLast? = some ';') (named : Bool) :
    shouldExecute env line named = true := by
  simp [shouldExecute, h]

/-- The resolution phase appends zero or one entries to the history. -/
theorem getQueryMain_history_append (env : Env) (s : InteractiveState) (line : LC) :
    ∃ t, (getQueryMain env s line).1.history = s.history ++ t := by
  unfold getQueryMain
  cases hres : resolveQueryAndArgsFromSQLString env.ws
      (joinLines (s.interactiveBuffer ++ [line])) with
  | none => exact ⟨[line], rfl⟩
  | some p =>
    obtain ⟨rq, isNamed⟩ := p
    dsimp only
    by_cases h1 : (!shouldExecute env (joinLines (s.interactiveBuffer ++ [line]))
        isNamed) = true
    · rw [if_pos h1]
      exact ⟨[], by simp⟩
    · rw [if_neg h1]
      by_cases h2 : trimSpace rq.executeSQL = [';']
      · rw [if_pos h2]
        exact ⟨[], by simp⟩
      · rw [if_neg h2]
        exact ⟨_, rfl⟩

/-- Every `getQuery` step appends zero or one entries to the history. -/
theorem getQuery_history_append (env : Env) (s : InteractiveState) (line : LC) :
    ∃ t, (getQuery env s line).1.history = s.history ++ t := by
  unfold getQuery
  by_cases h1 : line = []
  · rw [if_pos h1]
    exact ⟨[], by simp⟩
  · rw [if_neg h1]
    by_cases h2 : (!s.initialisationComplete && env.initWaitFails) = true
    · rw [if_pos h2]
      exact ⟨[], by simp⟩
    · rw [if_neg h2]
      by_cases h3 : s.initialisationComplete = true
      · rw [if_pos h3]
        exact getQueryMain_history_append env s line
      · rw [if_neg h3]
        exact getQueryMain_history_append env _ line

/-! ## Case analysis of `getQuery` and `executor` -/

/-- The four possible results of the resolution phase, with the exact state
each one produces. -/
theorem getQueryMain_spec (env : Env) (s : InteractiveState) (line : LC) :
    getQueryMain env s line =
      ({ s with interactiveBuffer := [], history := s.history ++ [line] },
        GetQueryOutcome.resolutionError) ∨
    getQueryMain env s line =
      ({ s with interactiveBuffer := s.interactiveBuffer ++ [line] },
        GetQueryOutcome.continueBuffering) ∨
    getQueryMain env s line =
      ({ s with interactiveBuffer := [] }, GetQueryOutcome.bareTerminator) ∨
    (∃ rq isNamed, getQueryMain env s line =
      ({ s with
          interactiveBuffer := []
          history := s.history ++ [historyEntryFor line rq isNamed] },
        GetQueryOutcome.resolved rq isNamed)) := by
  unfold getQueryMain
  cases hres : resolveQueryAndArgsFromSQLString env.ws
      (joinLines (s.interactiveBuffer ++ [line])) with
  | none => left; rfl
  | some p =>
    obtain ⟨rq, isNamed⟩ := p
    dsimp only
    by_cases h1 : (!shouldExecute env (joinLines (s.interactiveBuffer ++ [line]))
        isNamed) = true
    · right; left; rw [if_pos h1]
    · by_cases h2 : trimSpace rq.executeSQL = [';']
      · right; right; left; rw [if_neg h1, if_pos h2]
      · right; right; right; exact ⟨rq, isNamed, by rw [if_neg h1, if_neg h2]⟩

/-- `getQuery` either handles the empty line, fails the initialisation wait,
or delegates to the resolution phase at a state with the same buffer and
history. -/
theorem getQuery_spec (env : Env) (s : InteractiveState) (line : LC) :
    getQuery env s line = (s, GetQueryOutcome.emptyLine) ∨
    getQuery env s line =
      ({ s with interactiveBuffer := [] }, GetQueryOutcome.initFailure) ∨
    (∃ s0, getQuery env s line = getQueryMain env s0 line ∧
       s0.history = s.history ∧ s0.interactiveBuffer = s.interactiveBuffer) := by
  unfold getQuery
  by_cases h1 : line = []
  · left; rw [if_pos h1]
  · rw [if_neg h1]
    by_cases h2 : (!s.initialisationComplete && env.initWaitFails) = true
    · right; left; rw [if_pos h2]
    · rw [if_neg h2]
      by_cases h3 : s.initialisationComplete = true
      · exact Or.inr (Or.inr ⟨s, by rw [if_pos h3], rfl, rfl⟩)
      · exact Or.inr (Or.inr ⟨{ s with initialisationComplete := true },
          by rw [if_neg h3], rfl, rfl⟩)

/-- Every `executor` step appends zero or one entries to the history. -/
theorem executor_history_append (env : Env) (s : InteractiveState) (rawLine : LC) :
    ∃ t, (executor env s rawLine).1.history = s.history ++ t := by
  obtain ⟨t, ht⟩ := getQuery_history_append env
    { s with afterClose := AfterPromptCloseAction.restart } (trimSpace rawLine)
  simp only [executor]
  cases hgq : getQuery env { s with afterClose := AfterPromptCloseAction.restart }
      (trimSpace rawLine) with
  | mk s2 o =>
    rw [hgq] at ht
    cases o <;> exact ⟨t, ht⟩

/-- Over any sequence of submitted lines, the history only grows. -/
theorem runHistoryOnlyGrows (env : Env) :
    ∀ (lines : List LC) (s : InteractiveState),
      ∃ t, (lines.foldl (fun st l => (executor env st l).1) s).history =
        s.history ++ t := by
  intro lines
  induction lines with
  | nil => intro s; exact ⟨[], by simp⟩
  | cons l ls ih =>
    intro s
    obtain ⟨t1, h1⟩ := executor_history_append env s l
    obtain ⟨t2, h2⟩ := ih (executor env s l).1
    exact ⟨t1 ++ t2, by rw [List.foldl_cons, h2, h1, List.append_assoc]⟩

/-! ## Claim theorems: the interactive input path -/

/-- C2: for every resolved input the decision to execute is: true if the
resolution identified a named reference or directive; else true if multi-line
mode is disabled; else true if the joined buffer text is a metaquery; else
true exactly when the resolved executable text ends with `';'` (for a
non-named input the resolver returns the joined text itself, so the test
`strings.HasSuffix(line, ";")` on the joined text coincides with it); and
when the decision is false nothing is executed, the buffer keeps
accumulating, and no history is recorded. -/
theorem c2_execute_decision (env : Env) (s : InteractiveState) (line : LC)
    (rq : ResolvedQuery) (isNamed : Bool)
    (hres : resolveQueryAndArgsFromSQLString env.ws
      (joinLines (s.interactiveBuffer ++ [line])) = some (rq, isNamed)) :
    (shouldExecute env (joinLines (s.interactiveBuffer ++ [line])) isNamed =
      (isNamed || !env.multiLine ||
       env.isMetaQuery (joinLines (s.interactiveBuffer ++ [line])) ||
       decide (rq.executeSQL.getLast? = some ';'))) ∧
    (shouldExecute env (joinLines (s.interactiveBuffer ++ [line])) isNamed = false →
      getQueryMain env s line =
        ({ s with interactiveBuffer := s.interactiveBuffer ++ [line] },
         GetQueryOutcome.continueBuffering)) := by
  constructor
  · cases isNamed with
    | true => simp [shouldExecute]
    | false =>
      have hrq := resolve_nonNamed hres
      subst hrq
      cases h1 : env.multiLine with
      | false => simp [shouldExecute, h1]
      | true =>
        cases h2 : env.isMetaQuery (joinLines (s.interactiveBuffer ++ [line])) with
        | true => simp [shouldExecute, h1, h2]
        | false =>
          by_cases h3 : (joinLines (s.interactiveBuffer ++ [line])).getLast? = some ';'
          · simp [shouldExecute, h1, h2, h3]
          · simp [shouldExecute, h1, h2, h3]
  · intro hno
    unfold getQueryMain
    rw [hres]
    dsimp only
    rw [if_pos (by simp [hno])]

/-- C6: when the accumulated buffer fails to resolve, `getQuery` clears the
buffer, surfaces the error (the `resolutionError` outcome corresponds to the
`ShowError` call), returns no executable input, still pushes the raw line to
history, and the session continues: the executor merely restarts the prompt
(`afterClose` stays `restart`). -/
theorem c6_resolution_error (env : Env) (s : InteractiveState) (rawLine : LC)
    (hinit : s.initialisationComplete = true)
    (hne : trimSpace rawLine ≠ [])
    (hfail : env.ws.resolutionFails
      (joinLines (s.interactiveBuffer ++ [trimSpace rawLine])) = true) :
    executor env s rawLine =
      ({ s with
          interactiveBuffer := []
          history := s.history ++ [trimSpace rawLine]
          afterClose := AfterPromptCloseAction.restart },
       ExecOutcome.noQuery GetQueryOutcome.resolutionError) := by
  unfold executor getQuery getQueryMain resolveQueryAndArgsFromSQLString
  simp [hinit, hne, hfail]

/-- C7: a submitted input whose resolved executable text trims to exactly
`';'` is discarded silently: nothing is executed, no history entry is
recorded, the buffer ends up empty, and the read loop is restarted (the
executor restarts the prompt on the nil-query path).  The execute decision
is forced: for a named resolution it is immediate, and for a pass-through
resolution a text that trims to `';'` must end in `';'`. -/
theorem c7_bare_terminator (env : Env) (s : InteractiveState) (rawLine : LC)
    (rq : ResolvedQuery) (isNamed : Bool)
    (hinit : s.initialisationComplete = true)
    (hne : trimSpace rawLine ≠ [])
    (hres : resolveQueryAndArgsFromSQLString env.ws
      (joinLines (s.interactiveBuffer ++ [trimSpace rawLine])) =
      some (rq, isNamed))
    (hsemi : trimSpace rq.executeSQL = [';']) :
    executor env s rawLine =
      ({ s with
          interactiveBuffer := []
          afterClose := AfterPromptCloseAction.restart },
       ExecOutcome.noQuery GetQueryOutcome.bareTerminator) := by
  have hexec : shouldExecute env
      (joinLines (s.interactiveBuffer ++ [trimSpace rawLine])) isNamed = true := by
    cases isNamed with
    | true => simp [shouldExecute]
    | false =>
      have hrq := resolve_nonNamed hres
      obtain ⟨c, hlast, hns⟩ := trimSpace_getLast_not_space rawLine hne
      have hjoin : (joinLines (s.interactiveBuffer ++ [trimSpace rawLine])).getLast? =
          (trimSpace rawLine).getLast? := joinLines_getLast? hne s.interactiveBuffer
      have hsemi' : trimSpace (joinLines (s.interactiveBuffer ++ [trimSpace rawLine])) =
          [';'] := by
        rw [hrq] at hsemi
        exact hsemi
      have hc : c = ';' :=
        getLast_semi_of_trim_semi hsemi' (hjoin.trans hlast) hns
      rw [hc] at hlast
      exact shouldExecute_of_getLast_semi env (hjoin.trans hlast) false
  unfold executor getQuery getQueryMain
  simp [hinit, hne, hres, hexec, hsemi]

/-- C8: per execution step the history changes only as follows — a
pure-continuation step (`continueBuffering`), a bare-terminator step, an
empty line and a failed initialisation wait leave the history unchanged;
a resolution error appends the raw submitted line; an executed input appends
exactly one entry, which for a multi-line non-named statement is the full
resolved text (`historyEntryFor`); and over any input sequence the history is
only ever extended.  Hence the history never contains an entry produced by a
pure-continuation or bare-terminator submission, and each entry corresponds
to one submitted input. -/
theorem c8_history_invariant (env : Env) (s : InteractiveState) (rawLine : LC) :
    (executor env s rawLine =
       ({ s with afterClose := AfterPromptCloseAction.restart },
        ExecOutcome.noQuery GetQueryOutcome.emptyLine) ∨
     (∃ s', executor env s rawLine = (s', ExecOutcome.noQuery GetQueryOutcome.initFailure) ∧
        s'.history = s.history) ∨
     (∃ s', executor env s rawLine =
        (s', ExecOutcome.noQuery GetQueryOutcome.continueBuffering) ∧
        s'.history = s.history) ∨
     (∃ s', executor env s rawLine =
        (s', ExecOutcome.noQuery GetQueryOutcome.bareTerminator) ∧
        s'.history = s.history) ∨
     (∃ s', executor env s rawLine =
        (s', ExecOutcome.noQuery GetQueryOutcome.resolutionError) ∧
        s'.history = s.history ++ [trimSpace rawLine]) ∨
     (∃ s' rq isNamed, executor env s rawLine =
        (s', ExecOutcome.executed rq isNamed (env.isMetaQuery rq.executeSQL)) ∧
        s'.history = s.history ++ [historyEntryFor (trimSpace rawLine) rq isNamed])) ∧
    (∀ lines : List LC, ∃ t,
       (lines.foldl (fun st l => (executor env st l).1) s).history =
         s.history ++ t) := by
  constructor
  · simp only [executor]
    rcases getQuery_spec env { s with afterClose := AfterPromptCloseAction.restart }
        (trimSpace rawLine) with h | h | ⟨s0, heq, hh, _⟩
    · left; simp only [h]
    · right; left
      refine ⟨{ s with afterClose := AfterPromptCloseAction.restart, interactiveBuffer := [] },
        ?_, rfl⟩
      simp only [h]
    · rcases getQueryMain_spec env s0 (trimSpace rawLine) with hm | hm | hm |
        ⟨rq, isNamed, hm⟩
      · right; right; right; right; left
        refine ⟨{ s0 with
          interactiveBuffer := []
          history := s0.history ++ [trimSpace rawLine] }, ?_, ?_⟩
        · simp only [heq, hm]
        · simp [hh]
      · right; right; left
        refine ⟨{ s0 with
          interactiveBuffer := s0.interactiveBuffer ++ [trimSpace rawLine] }, ?_, ?_⟩
        · simp only [heq, hm]
        · simp [hh]
      · right; right; right; left
        refine ⟨{ s0 with interactiveBuffer := [] }, ?_, ?_⟩
        · simp only [heq, hm]
        · simp [hh]
      · right; right; right; right; right
        refine ⟨{ s0 with
          interactiveBuffer := []
          history := s0.history ++ [historyEntryFor (trimSpace rawLine) rq isNamed] },
          rq, isNamed, ?_, ?_⟩
        · simp only [heq, hm]
        · simp [hh]
  · intro lines
    exact runHistoryOnlyGrows env lines s

/-- C10: a line consisting only of whitespace is trimmed to the empty string
before resolution, so it is treated exactly like an empty line: no buffering,
no history entry, no execution, and the prompt is simply restarted. -/
theorem c10_whitespace_line (env : Env) (s : InteractiveState) (rawLine : LC)
    (h : rawLine.all goIsSpace = true) :
    executor env s rawLine =
      ({ s with afterClose := AfterPromptCloseAction.restart },
       ExecOutcome.noQuery GetQueryOutcome.emptyLine) := by
  have ht : trimSpace rawLine = [] := trimSpace_eq_nil_of_all_space h
  unfold executor getQuery
  rw [ht]
  simp

/-! ## Claim theorems: interrupts, teardown, invalidation -/

/-- C4: an OS interrupt before initialisation completes is treated as an exit
request (after-close action set to exit, prompt context cancelled, handler
stops); afterwards an interrupt cancels the active query's token if one is
valid and is a no-op when none is, and never itself closes the session — any
sequence of interrupts at an idle prompt (no active token) leaves the session
state unchanged, in particular still running. -/
theorem c4_interrupt_policy (s : CancelState) :
    (s.initialisationComplete = false →
      handleInterrupt s =
        { s with
            afterClose := AfterPromptCloseAction.exit
            promptOpen := false
            handlerRunning := false }) ∧
    (∀ t, s.initialisationComplete = true → s.cancelActiveQuery = some t →
      handleInterrupt s =
        { s with
            cancelActiveQuery := none
            cancelled := s.cancelled ++ [t] }) ∧
    (s.initialisationComplete = true → s.cancelActiveQuery = none →
      handleInterrupt s = s) ∧
    (∀ n, s.initialisationComplete = true → s.cancelActiveQuery = none →
      iterateInterrupts n s = s) := by
  refine ⟨?_, ?_, ?_, ?_⟩
  · intro h
    simp [handleInterrupt, closePrompt, h]
  · intro t h ht
    simp [handleInterrupt, cancelActiveQueryIfAny, h, ht]
  · intro h ht
    simp [handleInterrupt, cancelActiveQueryIfAny, h, ht]
  · intro n h ht
    induction n with
    | zero => rfl
    | succ m ih =>
      have hstep : handleInterrupt s = s := by
        simp [handleInterrupt, cancelActiveQueryIfAny, h, ht]
      show iterateInterrupts m (handleInterrupt s) = s
      rw [hstep]
      exact ih

/-- C4 witness: a pre-initialisation interrupt produces the exit request, and
three interrupts at an initialised idle prompt leave the state unchanged. -/
theorem c4_witness :
    handleInterrupt ⟨false, true, AfterPromptCloseAction.restart, none, [], true⟩ =
      { (⟨false, true, AfterPromptCloseAction.restart, none, [], true⟩ : CancelState) with
          afterClose := AfterPromptCloseAction.exit
          promptOpen := false
          handlerRunning := false } ∧
    iterateInterrupts 3 ⟨true, true, AfterPromptCloseAction.restart, none, [], true⟩ =
      ⟨true, true, AfterPromptCloseAction.restart, none, [], true⟩ :=
  ⟨(c4_interrupt_policy _).1 rfl, (c4_interrupt_policy _).2.2.2 3 rfl rfl⟩

/-- C1 counterexample: in the error-free invalidation run the installs of the
connection map, the schema metadata and the suggestion index all appear in
the trace with the execution lock NOT held — contradicting the claim that the
swap of session-visible cached state occurs under the execution-serialization
lock (so it is not mutually exclusive with a Dispatcher execution holding
that lock). -/
theorem c1_counterexample :
    (InvalStep.setConnectionMap, false) ∈
      handleConnectionUpdateNotificationTrace false false false false ∧
    (InvalStep.setSchemaMetadata, false) ∈
      handleConnectionUpdateNotificationTrace false false false false ∧
    (InvalStep.rebuildSuggestions, false) ∈
      handleConnectionUpdateNotificationTrace false false false false := by
  decide

/-- C1 amended: in every run of the schema-update handler, the execution lock
is held for exactly one step — the database-session refresh
(`RefreshSessions`); the installs of the connection map, global config,
schema metadata and suggestion index all happen before the lock is
acquired. -/
theorem c1_amended_lock_scope :
    ∀ e1 e2 e3 e4 : Bool,
      ((handleConnectionUpdateNotificationTrace e1 e2 e3 e4).all
        fun p => p.2 == (p.1 == InvalStep.refreshSessions)) = true := by
  decide

/-- C5 counterexample: on the exit path the history is persisted and the
notification listener is stopped strictly before interrupts stop being
accepted and the final cancel runs — contradicting the claimed order, which
puts the interrupt shutdown and final cancel first. -/
theorem c5_counterexample :
    (interactivePromptExitTrace true).indexOf TeardownStep.persistHistory <
      (interactivePromptExitTrace true).indexOf TeardownStep.stopInterrupts ∧
    (interactivePromptExitTrace true).indexOf TeardownStep.stopNotificationListener <
      (interactivePromptExitTrace true).indexOf TeardownStep.stopInterrupts := by
  decide

/-- C5 amended: teardown on the exit path performs, in order: persist the
history log, stop the notification listener (exactly when one was started),
stop accepting interrupts while issuing one final cancel of any in-flight
operation, clean up the init data, and close the output sink; none of the
steps is skipped. -/
theorem c5_amended_teardown_order :
    (∀ b : Bool,
      TeardownStep.persistHistory ∈ interactivePromptExitTrace b ∧
      TeardownStep.stopInterrupts ∈ interactivePromptExitTrace b ∧
      TeardownStep.finalCancel ∈ interactivePromptExitTrace b ∧
      TeardownStep.cleanupInitData ∈ interactivePromptExitTrace b ∧
      TeardownStep.closeOutputSink ∈ interactivePromptExitTrace b ∧
      (TeardownStep.stopNotificationListener ∈ interactivePromptExitTrace b ↔
        b = true) ∧
      (interactivePromptExitTrace b).indexOf TeardownStep.persistHistory <
        (interactivePromptExitTrace b).indexOf TeardownStep.stopInterrupts ∧
      (interactivePromptExitTrace b).indexOf TeardownStep.stopInterrupts <
        (interactivePromptExitTrace b).indexOf TeardownStep.finalCancel ∧
      (interactivePromptExitTrace b).indexOf TeardownStep.finalCancel <
        (interactivePromptExitTrace b).indexOf TeardownStep.cleanupInitData ∧
      (interactivePromptExitTrace b).indexOf TeardownStep.cleanupInitData <
        (interactivePromptExitTrace b).indexOf TeardownStep.closeOutputSink) ∧
    ((interactivePromptExitTrace true).indexOf TeardownStep.persistHistory <
      (interactivePromptExitTrace true).indexOf TeardownStep.stopNotificationListener ∧
     (interactivePromptExitTrace true).indexOf TeardownStep.stopNotificationListener <
      (interactivePromptExitTrace true).indexOf TeardownStep.stopInterrupts) := by
  decide

/-! ## Claim theorems: aggregator child resolution -/

/-- An aggregator that lists its own name as a child: the literal-match path
adds it to its own resolved children. -/
def selfAggregator : Connection :=
  ⟨str "a", str "P", connectionTypeAggregator, [str "a"]⟩

/-- An aggregator with plugin `P` whose child list names a connection with a
different plugin `Q` literally. -/
def mismatchAggregator : Connection :=
  ⟨str "A", str "P", connectionTypeAggregator, [str "x"]⟩

/-- The plugin-`Q` candidate named literally by `mismatchAggregator`. -/
def mismatchChild : Connection := ⟨str "x", str "Q", str "", []⟩

/-- C3 counterexample: with candidate map `{a ↦ a}` the aggregator `a`
(children `["a"]`) resolves to `{a}` — the resolved member set contains the
aggregator itself (an aggregator-typed connection); and with candidate map
`{x ↦ x(Q)}` the aggregator `A(P)` (children `["x"]`) resolves to `{x}`, a
member that does not share the aggregator's plugin identity.  Both refute the
claim's universal guarantees, because the literal-match path adds connections
unchecked. -/
theorem c3_counterexample :
    populateChildren selfAggregator [(str "a", selfAggregator)] =
      [(str "a", selfAggregator)] ∧
    selfAggregator.ctype = connectionTypeAggregator ∧
    populateChildren mismatchAggregator [(str "x", mismatchChild)] =
      [(str "x", mismatchChild)] ∧
    mismatchChild.plugin ≠ mismatchAggregator.plugin := by
  decide

/-- The aggregator of the spec's worked example: plugin `P`, children
`["b*", "c"]`. -/
def exampleAggregator : Connection :=
  ⟨str "A", str "P", connectionTypeAggregator, [str "b*", str "c"]⟩

/-- Candidate `b1`, plugin `P`. -/
def exampleB1 : Connection := ⟨str "b1", str "P", str "", []⟩

/-- Candidate `b2`, plugin `Q`. -/
def exampleB2 : Connection := ⟨str "b2", str "Q", str "", []⟩

/-- Candidate `c`, plugin `P`. -/
def exampleC : Connection := ⟨str "c", str "P", str "", []⟩

/-- A name-matching aggregator candidate, which wildcard resolution must
skip. -/
def exampleBagg : Connection := ⟨str "bagg", str "P", connectionTypeAggregator, []⟩

/-- The candidate map of the worked example (including the aggregator itself
and a name-matching aggregator candidate, neither of which may be added by
the wildcard). -/
def exampleConnectionMap : List (LC × Connection) :=
  [(str "A", exampleAggregator), (str "b1", exampleB1), (str "bagg", exampleBagg),
   (str "b2", exampleB2), (str "c", exampleC)]

/-- C3 amended: child resolution matches each child name literally against
the map first — adding a literal hit without any plugin or aggregator check —
and otherwise treats the name as a glob matched only against non-aggregator
candidates sharing the aggregator's plugin identity; hence every resolved
member is either a literal hit of a child name or a same-plugin
non-aggregator entry of the map.  On the spec's example (aggregator `A(P)`,
children `["b*","c"]`, candidates `b1(P)`, `b2(Q)`, `c(P)` plus aggregator
candidates) the resolved set is exactly `{b1, c}`. -/
theorem c3_amended_child_resolution :
    (∀ (c : Connection) (connectionMap : List (LC × Connection)) (n : LC)
        (conn : Connection), (n, conn) ∈ populateChildren c connectionMap →
      (n ∈ c.connectionNames ∧ lookupA connectionMap n = some conn) ∨
      ((n, conn) ∈ connectionMap ∧ conn.ctype ≠ connectionTypeAggregator ∧
        conn.plugin = c.plugin)) ∧
    populateChildren exampleAggregator exampleConnectionMap =
      [(str "b1", exampleB1), (str "c", exampleC)] := by
  constructor
  · intro c m n conn h
    simpa [childSpec] using populateChildren_childSpec c m (n, conn) h
  · decide

/-- C3 amended witness: the wildcard-resolved member `b1` of the worked
example is classified by the amended characterisation. -/
theorem c3_amended_witness :
    ((str "b1", exampleB1) ∈ populateChildren exampleAggregator exampleConnectionMap) ∧
    ((str "b1" ∈ exampleAggregator.connectionNames ∧
        lookupA exampleConnectionMap (str "b1") = some exampleB1) ∨
      ((str "b1", exampleB1) ∈ exampleConnectionMap ∧
        exampleB1.ctype ≠ connectionTypeAggregator ∧
        exampleB1.plugin = exampleAggregator.plugin)) :=
  ⟨by decide, c3_amended_child_resolution.1 exampleAggregator exampleConnectionMap
    (str "b1") exampleB1 (by decide)⟩

/-- C9: a child name that exactly matches a key of the candidate map is added
to the resolved children with no plugin-identity or aggregator check (the
connection found is added whatever its `Type` and `Plugin` are), while every
member that did not come from such a literal hit passed the wildcard path's
filters: it is not an aggregator and shares the aggregator's plugin. -/
theorem c9_literal_match_unchecked (c : Connection)
    (connectionMap : List (LC × Connection)) (childName : LC) (conn : Connection)
    (hcn : childName ∈ c.connectionNames)
    (hlk : lookupA connectionMap childName = some conn) :
    (childName, conn) ∈ populateChildren c connectionMap ∧
    (∀ p ∈ populateChildren c connectionMap,
      ¬(p.1 ∈ c.connectionNames ∧ lookupA connectionMap p.1 = some p.2) →
      p.2.ctype ≠ connectionTypeAggregator ∧ p.2.plugin = c.plugin) := by
  constructor
  · exact literal_mem_populate_foldl hlk c.connectionNames [] hcn
  · intro p hp hnot
    rcases populateChildren_childSpec c connectionMap p hp with h | h
    · exact absurd h hnot
    · exact ⟨h.2.1, h.2.2⟩

/-- C9 witness: the self-aggregator example — the literal hit `a`, an
aggregator itself, is in the resolved children. -/
theorem c9_witness :
    (str "a", selfAggregator) ∈
      populateChildren selfAggregator [(str "a", selfAggregator)] :=
  (c9_literal_match_unchecked selfAggregator [(str "a", selfAggregator)]
    (str "a") selfAggregator (by decide) (by decide)).1

/-! ## Concrete witnesses for the interactive-path claims -/

/-- A concrete workspace: no named queries; resolution fails exactly on the
input `badref`. -/
def witnessWorkspace : Workspace := ⟨[], fun q => q == str "badref"⟩

/-- A concrete environment: multi-line mode on, nothing is a metaquery, the
initialisation wait succeeds. -/
def witnessEnv : Env := ⟨witnessWorkspace, true, fun _ => false, false⟩

/-- A concrete initialised session state with empty buffer and history. -/
def witnessState : InteractiveState := ⟨[], [], true, AfterPromptCloseAction.restart⟩

/-- C2 witness: the execute decision for the plain statement `select 1`
(multi-line mode on, no terminator) evaluates by the claimed cascade. -/
theorem c2_witness :
    resolveQueryAndArgsFromSQLString witnessEnv.ws
      (joinLines (witnessState.interactiveBuffer ++ [str "select 1"])) =
      some (⟨str "select 1", []⟩, false) ∧
    shouldExecute witnessEnv
      (joinLines (witnessState.interactiveBuffer ++ [str "select 1"])) false =
      (false || !witnessEnv.multiLine ||
       witnessEnv.isMetaQuery
         (joinLines (witnessState.interactiveBuffer ++ [str "select 1"])) ||
       decide ((⟨str "select 1", []⟩ : ResolvedQuery).executeSQL.getLast? =
         some ';')) :=
  ⟨by decide,
   (c2_execute_decision witnessEnv witnessState (str "select 1")
     ⟨str "select 1", []⟩ false (by decide)).1⟩

/-- C6 witness: submitting `badref` (whose resolution fails) clears the
buffer, pushes `badref` to history, and restarts the prompt. -/
theorem c6_witness :
    trimSpace (str "badref") ≠ [] ∧
    executor witnessEnv witnessState (str "badref") =
      ({ witnessState with
          interactiveBuffer := []
          history := witnessState.history ++ [trimSpace (str "badref")]
          afterClose := AfterPromptCloseAction.restart },
       ExecOutcome.noQuery GetQueryOutcome.resolutionError) :=
  ⟨by decide,
   c6_resolution_error witnessEnv witnessState (str "badref") rfl (by decide)
     (by decide)⟩

/-- C7 witness: submitting the bare terminator `;` executes nothing, records
no history, leaves the buffer empty and restarts the loop. -/
theorem c7_witness :
    trimSpace (str ";") ≠ [] ∧
    resolveQueryAndArgsFromSQLString witnessEnv.ws
      (joinLines (witnessState.interactiveBuffer ++ [trimSpace (str ";")])) =
      some (⟨str ";", []⟩, false) ∧
    trimSpace (ResolvedQuery.executeSQL ⟨str ";", []⟩) = [';'] ∧
    executor witnessEnv witnessState (str ";") =
      ({ witnessState with
          interactiveBuffer := []
          afterClose := AfterPromptCloseAction.restart },
       ExecOutcome.noQuery GetQueryOutcome.bareTerminator) :=
  ⟨by decide, by decide, by decide,
   c7_bare_terminator witnessEnv witnessState (str ";") ⟨str ";", []⟩ false rfl
     (by decide) (by decide) (by decide)⟩

/-- C10 witness: a line of two spaces is treated exactly like an empty
line. -/
theorem c10_witness :
    (str "  ").all goIsSpace = true ∧
    executor witnessEnv witnessState (str "  ") =
      ({ witnessState with afterClose := AfterPromptCloseAction.restart },
       ExecOutcome.noQuery GetQueryOutcome.emptyLine) :=
  ⟨by decide, c10_whitespace_line witnessEnv witnessState (str "  ") (by decide)⟩

end Steampipe
